import Mathlib

/-!
Verification of the SPI-flash backup/restore tool (`src/main.c`) against its
natural-language specification.  The C driver and the FIMG backup/restore
pipeline are shallowly embedded: machine integers become `Nat` with explicit
`% 2 ^ 32` where 32-bit overflow matters, the flash chip becomes a function
from addresses to byte values, the SPI bus traffic becomes an explicit list
of `BusEvent`s, and loops whose variant is a decreasing byte count are
written with a `fuel` parameter initialised to that byte count (each
iteration consumes at least one unit, so the fuel is never exhausted on the
paths the theorems talk about).
-/

/-- A flash chip, modelled as its data array: address to byte value. -/
def Chip : Type := Nat → Nat

/-- `crc32_update` inner-loop single bit step (`c = (c >> 1) ^ (0xEDB88320 & -(c & 1))`).
In C, `-(int)(c & 1)` is all-ones exactly when the low bit of `c` is set. -/
def crc32_bit (c : Nat) : Nat :=
  (c >>> 1) ^^^ (if c % 2 = 1 then 0xEDB88320 else 0)

/-- The eight bit-steps of `crc32_update` applied to one byte. -/
def crc32_bits : Nat → Nat → Nat
  | 0, c => c
  | k + 1, c => crc32_bits k (crc32_bit c)

/-- One byte of the `crc32_update` loop: `c ^= b[i]` then eight bit steps. -/
def crc32_byte (c b : Nat) : Nat := crc32_bits 8 (c ^^^ b)

/-- `crc32_update` from `src/main.c`: complement the accumulator, fold the
bytes through the bitwise loop, complement again.  The complement of a
`uint32_t` is modelled as xor with `0xFFFFFFFF`. -/
def crc32_update (c : Nat) (b : List Nat) : Nat :=
  (b.foldl crc32_byte (c ^^^ 0xFFFFFFFF)) ^^^ 0xFFFFFFFF

theorem xor_mask_cancel (x : Nat) : (x ^^^ 0xFFFFFFFF) ^^^ 0xFFFFFFFF = x := by
  rw [Nat.xor_assoc, Nat.xor_self, Nat.xor_zero]

@[simp] theorem crc32_update_nil (c : Nat) : crc32_update c [] = c := by
  simp [crc32_update, xor_mask_cancel]

theorem crc32_update_append (c : Nat) (a b : List Nat) :
    crc32_update c (a ++ b) = crc32_update (crc32_update c a) b := by
  simp [crc32_update, List.foldl_append, xor_mask_cancel]

/-- C3: the chunk boundaries are not an input to the checksum.  Folding
`crc32_update` over any partition of a byte sequence into consecutive chunks
(accumulator starting at 0) equals a single `crc32_update` call over the
concatenation.  Stated for an arbitrary starting accumulator first. -/
theorem crc32_update_chunked_from (chunks : List (List Nat)) :
    ∀ c : Nat, chunks.foldl crc32_update c = crc32_update c chunks.flatten := by
  induction chunks with
  | nil => intro c; simp
  | cons a rest ih =>
    intro c
    rw [List.foldl_cons, List.flatten_cons, crc32_update_append]
    exact ih (crc32_update c a)

/-- C3: For every byte sequence and every partition of it into consecutive
chunks of arbitrary sizes, folding `crc32_update` over the chunks starting
from accumulator 0 yields the same final CRC-32 as one `crc32_update` call
over the whole concatenated sequence. -/
theorem crc32_update_chunked (chunks : List (List Nat)) :
    chunks.foldl crc32_update 0 = crc32_update 0 chunks.flatten :=
  crc32_update_chunked_from chunks 0

set_option maxRecDepth 4000

/-- C8: the CRC-32 implementation matches the reference vectors: the checksum
of the empty input is 0 and the checksum of the ASCII bytes "123456789" is
0xCBF43926. -/
theorem crc32_reference_vectors :
    crc32_update 0 [] = 0 ∧
    crc32_update 0 [0x31, 0x32, 0x33, 0x34, 0x35, 0x36, 0x37, 0x38, 0x39]
      = 0xCBF43926 := by
  constructor
  · rfl
  · decide

/-- `flash_calculate_capacity` from `src/main.c`: maps a JEDEC capacity code
in `[0x10, 0x20]` to `(1u << code) / 8` bytes and anything else to 0.  The
32-bit shift is modelled as `(1 <<< code) % 2 ^ 32` (for code `0x20` the
32-bit value wraps to 0, which is what the 32-bit register arithmetic of the
target produces). -/
def flash_calculate_capacity (capacity_code : Nat) : Nat :=
  if capacity_code < 0x10 ∨ 0x20 < capacity_code then 0
  else ((1 <<< capacity_code) % 2 ^ 32) / 8

/-- C5: for every capacity code in `[0x10, 0x20]`, `flash_calculate_capacity`
returns `2 ^ code / 8` computed in 32-bit unsigned arithmetic (so for example
`0x18` gives 2097152, and `0x20` wraps to 0), and for every code outside the
range it returns 0, triggering the caller's 16 MiB fallback. -/
theorem flash_calculate_capacity_spec (code : Nat) :
    (0x10 ≤ code → code ≤ 0x20 →
      flash_calculate_capacity code = (2 ^ code % 2 ^ 32) / 8) ∧
    (code < 0x10 ∨ 0x20 < code → flash_calculate_capacity code = 0) ∧
    flash_calculate_capacity 0x18 = 2097152 := by
  refine ⟨fun h1 h2 => ?_, fun h => ?_, by decide⟩
  · rw [flash_calculate_capacity, if_neg (by omega), Nat.shiftLeft_eq, one_mul]
  · rw [flash_calculate_capacity, if_pos h]

/-- Witness for C5 at the spec's two vectors: code `0x18` (in range) and
code `0x0F` (out of range). -/
theorem flash_calculate_capacity_spec_witness :
    flash_calculate_capacity 0x18 = (2 ^ 0x18 % 2 ^ 32) / 8 ∧
    flash_calculate_capacity 0x0F = 0 :=
  ⟨(flash_calculate_capacity_spec 0x18).1 (by decide) (by decide),
   (flash_calculate_capacity_spec 0x0F).2.1 (Or.inl (by decide))⟩

/-- JEDEC identification triple, `jedec_info_t` from `src/main.c`. -/
structure jedec_info_t where
  manuf_id : Nat
  mem_type : Nat
  capacity_id : Nat

/-- One SPI transaction of the flash driver, as observed on the bus:
single-byte commands (`flash_cmd1`), the status-register write of
`flash_global_unprotect`, status reads, busy-wait polls (recorded with their
timeout), sequential data reads, page-program transfers and 4K sector-erase
commands. -/
inductive BusEvent where
  | cmd (opcode : Nat)
  | writeStatus
  | readSR1
  | readSR2
  | waitBusy (timeout_ms : Nat)
  | readData (addr : Nat) (len : Nat)
  | progCmd (addr : Nat) (data : List Nat)
  | eraseCmd (addr : Nat)
  deriving DecidableEq

/-- Bus events of `flash_soft_reset`: reset-enable (0x66) then reset (0x99). -/
def flash_soft_reset_events : List BusEvent :=
  [BusEvent.cmd 0x66, BusEvent.cmd 0x99]

/-- Bus events of `flash_global_unprotect`: unlock-all (0x98), write-enable
(0x06), the `WRSR 00 00` status write, the (ignored) 200 ms busy-wait, then
the two diagnostic status reads. -/
def flash_global_unprotect_events : List BusEvent :=
  [BusEvent.cmd 0x98, BusEvent.cmd 0x06, BusEvent.writeStatus,
   BusEvent.waitBusy 200, BusEvent.readSR1, BusEvent.readSR2]

/-- Bus events of `flash_dut_init`: soft reset followed by global unprotect
(the SPI pin configuration itself touches no chip state). -/
def flash_dut_init_events : List BusEvent :=
  flash_soft_reset_events ++ flash_global_unprotect_events

/-- `flash_dut_read` from `src/main.c`: sequential read of `len` bytes
starting at `addr` (the returned buffer contents). -/
def flash_dut_read (chip : Chip) (addr len : Nat) : List Nat :=
  (List.range len).map fun i => chip (addr + i)

/-- Overwrite `data.length` bytes of the chip starting at `addr` (the data
effect of a page-program transfer). -/
def writeBytes (chip : Chip) (addr : Nat) (data : List Nat) : Chip :=
  fun x => if addr ≤ x ∧ x < addr + data.length then data.getD (x - addr) 0 else chip x

/-- `flash_dut_program_page` from `src/main.c`.  `data = none` models a NULL
pointer.  The guard (`!data || !len || len > FLASH_PAGE_SIZE`) fails without
issuing any bus command; otherwise the driver issues write-enable, the
page-program transfer, and polls busy with a 10 s deadline whose outcome is
the `busyOk` oracle. -/
def flash_dut_program_page (busyOk : Bool) (chip : Chip) (addr : Nat)
    (data : Option (List Nat)) : Bool × Chip × List BusEvent :=
  match data with
  | none => (false, chip, [])
  | some d =>
    if d.length = 0 ∨ 256 < d.length then (false, chip, [])
    else (busyOk, writeBytes chip addr d,
          [BusEvent.cmd 0x06, BusEvent.progCmd addr d, BusEvent.waitBusy 10000])

/-- The length guard of `flash_dut_program_page`: a present buffer of length
in `[1, 256]`. -/
def validProgramData : Option (List Nat) → Bool
  | none => false
  | some d => decide (1 ≤ d.length) && decide (d.length ≤ 256)

/-- C10: a `flash_dut_program_page` call with a NULL buffer, length 0 or
length above 256 returns failure immediately, with no bus command issued and
the chip unchanged; and the call reports failure exactly when the length
precondition is violated or the post-program busy-wait times out. -/
theorem flash_dut_program_page_spec (busyOk : Bool) (chip : Chip) (addr : Nat)
    (data : Option (List Nat)) :
    (validProgramData data = false →
      flash_dut_program_page busyOk chip addr data = (false, chip, [])) ∧
    (flash_dut_program_page busyOk chip addr data).1
      = (validProgramData data && busyOk) := by
  match data with
  | none => exact ⟨fun _ => rfl, rfl⟩
  | some d =>
    by_cases h : d.length = 0 ∨ 256 < d.length
    · refine ⟨fun _ => ?_, ?_⟩
      · simp only [flash_dut_program_page, if_pos h]
      · simp only [flash_dut_program_page, if_pos h, validProgramData]
        rcases h with h | h <;> simp [h]
    · constructor
      · intro hv
        exfalso
        simp only [validProgramData, Bool.and_eq_false_iff, decide_eq_false_iff_not] at hv
        omega
      · simp only [flash_dut_program_page, if_neg h, validProgramData]
        have h1 : 1 ≤ d.length := by omega
        have h2 : d.length ≤ 256 := by omega
        simp [h1, h2]

/-- The all-zero chip used by the concrete witnesses. -/
def zeroChip : Chip := fun _ => 0

/-- Witness for C10: programming 300 bytes (over the page limit) fails with
no bus traffic and no chip change. -/
theorem flash_dut_program_page_spec_witness :
    flash_dut_program_page true zeroChip 0 (some (List.replicate 300 7))
      = (false, zeroChip, []) :=
  (flash_dut_program_page_spec true zeroChip 0 (some (List.replicate 300 7))).1
    (by decide)

/-- `flash_dut_erase_4k` from `src/main.c`, at bus-event granularity.  The
`wait` oracle gives the outcome of the n-th busy-wait of the call, in order
of occurrence: index 0 is the (ignored) wait inside the first
`flash_global_unprotect`, index 1 the 2000 ms wait after the first erase
command, index 2 the (ignored) wait inside the recovery unprotect, index 3
the 3000 ms wait after the re-issued erase command.  On a first-attempt
timeout the driver reads both status registers, issues resume (0x7A), soft
reset, global unprotect, then write-enable and the erase command again; a
second timeout is a hard failure with no further retry. -/
def flash_dut_erase_4k (wait : Nat → Bool) (addr : Nat) : Bool × List BusEvent :=
  let attempt1 := flash_global_unprotect_events ++
    [BusEvent.cmd 0x06, BusEvent.eraseCmd addr, BusEvent.waitBusy 2000]
  if wait 1 then (true, attempt1)
  else
    (wait 3, attempt1 ++
      ([BusEvent.readSR1, BusEvent.readSR2, BusEvent.cmd 0x7A] ++
       flash_soft_reset_events ++ flash_global_unprotect_events ++
       [BusEvent.cmd 0x06, BusEvent.eraseCmd addr, BusEvent.waitBusy 3000]))

/-- The full bus trace of an erase call whose first busy-wait timed out:
first attempt, then exactly one recovery cycle (status reads, resume, soft
reset, unprotect) and one re-issued erase. -/
def erase_retry_trace (addr : Nat) : List BusEvent :=
  (flash_global_unprotect_events ++
    [BusEvent.cmd 0x06, BusEvent.eraseCmd addr, BusEvent.waitBusy 2000]) ++
  ([BusEvent.readSR1, BusEvent.readSR2, BusEvent.cmd 0x7A] ++
   flash_soft_reset_events ++ flash_global_unprotect_events ++
   [BusEvent.cmd 0x06, BusEvent.eraseCmd addr, BusEvent.waitBusy 3000])

/-- Recognizes a 4K sector-erase command on the bus. -/
def isEraseEvent : BusEvent → Bool
  | BusEvent.eraseCmd _ => true
  | _ => false

/-- Recognizes a page-program transfer on the bus. -/
def isProgEvent : BusEvent → Bool
  | BusEvent.progCmd _ _ => true
  | _ => false

/-- Recognizes the reset command (0x99) of a soft-reset sequence. -/
def isResetEvent : BusEvent → Bool
  | BusEvent.cmd op => op == 0x99
  | _ => false

/-- Recognizes the resume-from-suspend command (0x7A). -/
def isResumeEvent : BusEvent → Bool
  | BusEvent.cmd op => op == 0x7A
  | _ => false

/-- C7: if the first erase busy-wait (2000 ms) times out, `flash_dut_erase_4k`
performs exactly one recovery cycle and re-issues the erase once, returning
the outcome of the retry busy-wait (3000 ms): success if it clears, failure
with no further retry if it also times out.  The trace contains exactly two
erase commands, one reset and one resume. -/
theorem flash_dut_erase_4k_recovery (wait : Nat → Bool) (addr : Nat)
    (h1 : wait 1 = false) :
    flash_dut_erase_4k wait addr = (wait 3, erase_retry_trace addr) ∧
    (erase_retry_trace addr).filter isEraseEvent
      = [BusEvent.eraseCmd addr, BusEvent.eraseCmd addr] ∧
    (erase_retry_trace addr).filter isResetEvent = [BusEvent.cmd 0x99] ∧
    (erase_retry_trace addr).filter isResumeEvent = [BusEvent.cmd 0x7A] := by
  refine ⟨?_, rfl, rfl, rfl⟩
  rw [flash_dut_erase_4k, if_neg (by simp [h1])]
  rfl

/-- The busy-wait oracle of the C7 witness: only the retry wait (index 3)
clears in time. -/
def erase_wait_example : Nat → Bool := fun i => i == 3

/-- Witness for C7: with the first erase wait timing out and the retry wait
clearing, the erase succeeds after exactly one recovery cycle. -/
theorem flash_dut_erase_4k_recovery_witness :
    flash_dut_erase_4k erase_wait_example 0 = (true, erase_retry_trace 0) ∧
    (erase_retry_trace 0).filter isEraseEvent
      = [BusEvent.eraseCmd 0, BusEvent.eraseCmd 0] ∧
    (erase_retry_trace 0).filter isResetEvent = [BusEvent.cmd 0x99] ∧
    (erase_retry_trace 0).filter isResumeEvent = [BusEvent.cmd 0x7A] :=
  flash_dut_erase_4k_recovery erase_wait_example 0 rfl

/-- Byte access into a file image, 0 past the end (reads past the end are
separately guarded by the explicit length checks of the loops). -/
def byteAt (bs : List Nat) (i : Nat) : Nat := bs.getD i 0

/-- The four little-endian bytes of a `uint32_t`. -/
def le32 (x : Nat) : List Nat :=
  [x % 256, x / 256 % 256, x / 65536 % 256, x / 16777216 % 256]

/-- Read a little-endian `uint32_t` at byte offset `off`. -/
def rd32 (bs : List Nat) (off : Nat) : Nat :=
  byteAt bs off + 256 * byteAt bs (off + 1) + 65536 * byteAt bs (off + 2) +
    16777216 * byteAt bs (off + 3)

/-- The 8-byte magic tag `"FIMGv1\0"` (string literal plus its terminator,
as `memcpy`-ed into the packed header). -/
def fimgMagic : List Nat := [0x46, 0x49, 0x4D, 0x47, 0x76, 0x31, 0x00, 0x00]

/-- `flashimg_hdr_t` from `src/main.c` (packed, 28 bytes on disk). -/
structure flashimg_hdr_t where
  magic : List Nat
  jedec : List Nat
  reserved : Nat
  flash_size : Nat
  chunk_size : Nat
  image_size : Nat
  crc32_all : Nat

/-- Serialize the packed header: magic (8) + jedec (3) + reserved (1) +
four little-endian `uint32_t` fields. -/
def hdrBytes (h : flashimg_hdr_t) : List Nat :=
  h.magic ++ h.jedec ++ [h.reserved] ++ le32 h.flash_size ++ le32 h.chunk_size ++
    le32 h.image_size ++ le32 h.crc32_all

/-- Deserialize the packed header from the first 28 bytes of a file image
(the effect of `f_read(&fp, &h, sizeof(h), &br)` on a little-endian target). -/
def parseHdr (bs : List Nat) : flashimg_hdr_t :=
  { magic := bs.take 8
    jedec := [byteAt bs 8, byteAt bs 9, byteAt bs 10]
    reserved := byteAt bs 11
    flash_size := rd32 bs 12
    chunk_size := rd32 bs 16
    image_size := rd32 bs 20
    crc32_all := rd32 bs 24 }

/-- The CRC-recomputation loop of `restore_flash_from_sd` (`while (remain)`
reading `min(remain, chunk)` bytes at a time from the file and feeding them
to `crc32_update`).  `none` models the `-8` read-failure path (a chunk read
past the end of the file).  `fuel` is initialised to `remain`; every
iteration consumes at least one byte because the header validation
guarantees `chunk ≠ 0`, so the `n = 0` escape (where the C code would spin
forever) and fuel exhaustion are unreachable. -/
def crcLoop (file : List Nat) (chunk : Nat) : Nat → Nat → Nat → Nat → Option Nat
  | _, _, c, 0 => some c
  | 0, _, _, _ + 1 => none
  | fuel + 1, pos, c, remain =>
    let n := min remain chunk
    if n = 0 then none
    else if pos + n ≤ file.length then
      crcLoop file chunk fuel (pos + n) (crc32_update c ((file.drop pos).take n))
        (remain - n)
    else none

/-- Erase the 4096-byte sector at `a` to `0xFF` (data effect of a successful
`flash_dut_erase_4k`). -/
def eraseFill (chip : Chip) (a : Nat) : Chip :=
  fun x => if a ≤ x ∧ x < a + 4096 then 0xFF else chip x

/-- The sector-erase loop of `restore_flash_from_sd`
(`for (a = 0; a < flash_size; a += 4096)`), with every busy-wait clearing
(healthy chip), accumulating the bus events of each `flash_dut_erase_4k`
call.  `fuel` is initialised to `flash_size`, which bounds the iteration
count since the address advances by 4096 each time. -/
def eraseLoop : Nat → Chip → Nat → Nat → Chip × List BusEvent
  | 0, chip, _, _ => (chip, [])
  | fuel + 1, chip, a, flash_size =>
    if a < flash_size then
      let ev := (flash_dut_erase_4k (fun _ => true) a).2
      let r := eraseLoop fuel (eraseFill chip a) (a + 4096) flash_size
      (r.1, ev ++ r.2)
    else (chip, [])

/-- The page-splitting inner loop of `restore_flash_from_sd`: while bytes of
the chunk remain, compute `room = 256 - (addr mod 256)`, program
`min(remaining, room)` bytes through `flash_dut_program_page` (busy-wait
clearing), advance.  `none` models a program failure (unreachable here since
every piece has valid length and the busy-wait clears) or fuel exhaustion
(`fuel` is initialised to `data.length` and every iteration writes at least
one byte since `room ≥ 1`). -/
def programChunk : Nat → Chip → Nat → List Nat → Option (Chip × List BusEvent)
  | _, chip, _, [] => some (chip, [])
  | 0, _, _, _ :: _ => none
  | fuel + 1, chip, addr, data =>
    let room := 256 - addr % 256
    let w := min data.length room
    let piece := data.take w
    match flash_dut_program_page true chip addr (some piece) with
    | (true, chip', ev) =>
      match programChunk fuel chip' (addr + w) (data.drop w) with
      | some r => some (r.1, ev ++ r.2)
      | none => none
    | (false, _, _) => none

/-- The programming loop of `restore_flash_from_sd`: re-stream the payload
from offset 28, one `min(remain, chunk)`-byte chunk at a time, and program
each chunk through the page-splitting loop.  Errors carry the C return code
(`-12` chunk read failure / fuel exhaustion / the `chunk = 0` spin that the
header validation makes unreachable, `-13` program failure) together with
the chip and trace so far. -/
def programLoop (file : List Nat) (chunk : Nat) :
    Nat → Nat → Chip → Nat → Nat →
      Except (Int × Chip × List BusEvent) (Chip × List BusEvent)
  | _, _, chip, _, 0 => Except.ok (chip, [])
  | 0, _, chip, _, _ + 1 => Except.error (-12, chip, [])
  | fuel + 1, pos, chip, addr, remain =>
    let n := min remain chunk
    if n = 0 then Except.error (-12, chip, [])
    else if pos + n ≤ file.length then
      match programChunk n chip addr ((file.drop pos).take n) with
      | some r =>
        match programLoop file chunk fuel (pos + n) r.1 (addr + n) (remain - n) with
        | Except.ok r2 => Except.ok (r2.1, r.2 ++ r2.2)
        | Except.error e => Except.error (e.1, e.2.1, r.2 ++ e.2.2)
      | none => Except.error (-13, chip, [])
    else Except.error (-12, chip, [])

/-- The streaming loop of `crc32_over_flash`: read `min(remain, chunk)` bytes
from the live chip, update the CRC, advance.  `fuel` is initialised to the
total byte count; the caller rejects `chunk = 0` so the escape is
unreachable. -/
def crcFlashLoop (chip : Chip) (chunk : Nat) : Nat → Nat → Nat → Nat → Nat × List BusEvent
  | _, _, c, 0 => (c, [])
  | 0, _, c, _ + 1 => (c, [])
  | fuel + 1, addr, c, remain =>
    let n := min remain chunk
    if n = 0 then (c, [])
    else
      let r := crcFlashLoop chip chunk fuel (addr + n)
        (crc32_update c (flash_dut_read chip addr n)) (remain - n)
      (r.1, BusEvent.readData addr n :: r.2)

/-- `crc32_over_flash` from `src/main.c`: streamed CRC-32 over the live chip;
rejects `chunk_bytes = 0` (the C code returns `-1` there, mapped to `none`). -/
def crc32_over_flash (chip : Chip) (total_bytes chunk_bytes : Nat) :
    Option Nat × List BusEvent :=
  if chunk_bytes = 0 then (none, [])
  else
    let r := crcFlashLoop chip chunk_bytes total_bytes 0 0 total_bytes
    (some r.1, r.2)

/-- The streaming loop of `backup_flash_to_sd`: read the chip in 4096-byte
chunks from address 0, updating the running CRC and appending each chunk to
the file payload.  Returns (payload bytes written, final CRC).  `fuel` is
initialised to the byte count; every iteration consumes at least one byte. -/
def backupLoop (chip : Chip) : Nat → Nat → Nat → Nat → List Nat × Nat
  | _, _, c, 0 => ([], c)
  | 0, _, c, _ + 1 => ([], c)
  | fuel + 1, addr, c, remain =>
    let n := min remain 4096
    let data := flash_dut_read chip addr n
    let r := backupLoop chip fuel (addr + n) (crc32_update c data) (remain - n)
    (data ++ r.1, r.2)

/-- The bytes `backup_flash_to_sd` leaves on storage for a chip whose derived
capacity is `flash_sz`: packed header (with the backfilled CRC), the raw
payload streamed in 4096-byte chunks, and the 4-byte CRC trailer. -/
def backup_file (chip : Chip) (id : jedec_info_t) (flash_sz : Nat) : List Nat :=
  let r := backupLoop chip flash_sz 0 0 flash_sz
  hdrBytes
    { magic := fimgMagic
      jedec := [id.manuf_id, id.mem_type, id.capacity_id]
      reserved := 0
      flash_size := flash_sz
      chunk_size := 4096
      image_size := flash_sz
      crc32_all := r.2 } ++ r.1 ++ le32 r.2

/-- The capacity `backup_flash_to_sd` derives: SFDP probing is a stub, so the
JEDEC capacity table is used, with a 16 MiB fallback when it returns 0. -/
def backup_flash_size (capacity_id : Nat) : Nat :=
  let by_jedec := flash_calculate_capacity capacity_id
  if by_jedec ≠ 0 then by_jedec else 16 * 1024 * 1024

/-- `backup_flash_to_sd` from `src/main.c` (file contents produced for the
identified chip). -/
def backup_flash_to_sd (chip : Chip) (id : jedec_info_t) : List Nat :=
  backup_file chip id (backup_flash_size id.capacity_id)

/-- `restore_flash_from_sd` from `src/main.c`, for an explicitly named file
(SD mount and flash init succeed; the mount touches only the SD card, the
init issues `flash_dut_init_events` on the flash bus before anything else).
Returns the C return code, the final chip data and the full flash-bus trace.
Validation order as in the source: header read+magic (`-5`), zero-size
fields (`-6`), CRC recomputation over the payload (`-8` on short read),
trailer read (`-9`), three-way CRC agreement (`-10`); only then sector erase
over `[0, flash_size)`, chunked programming with page splitting (`-12`/`-13`),
and the final live CRC over `image_size` bytes (`-14` impossible here,
`-15` on mismatch, 0 on success). -/
def restore_flash_from_sd (file : List Nat) (chip : Chip) :
    Int × Chip × List BusEvent :=
  if 28 ≤ file.length ∧ file.take 8 = fimgMagic then
    let h := parseHdr file
    if h.image_size = 0 ∨ h.chunk_size = 0 then (-6, chip, flash_dut_init_events)
    else
      match crcLoop file h.chunk_size h.image_size 28 0 h.image_size with
      | none => (-8, chip, flash_dut_init_events)
      | some crc_calc =>
        if 28 + h.image_size + 4 ≤ file.length then
          let crc_file_trailer := rd32 file (28 + h.image_size)
          if crc_calc ≠ crc_file_trailer ∨ crc_calc ≠ h.crc32_all then
            (-10, chip, flash_dut_init_events)
          else
            let r1 := eraseLoop h.flash_size chip 0 h.flash_size
            match programLoop file h.chunk_size h.image_size 28 r1.1 0 h.image_size with
            | Except.error e =>
              (e.1, e.2.1, flash_dut_init_events ++ r1.2 ++ e.2.2)
            | Except.ok r2 =>
              match crc32_over_flash r2.1 h.image_size h.chunk_size with
              | (none, t3) =>
                (-14, r2.1, flash_dut_init_events ++ r1.2 ++ r2.2 ++ t3)
              | (some crc_flash, t3) =>
                if crc_flash ≠ h.crc32_all then
                  (-15, r2.1, flash_dut_init_events ++ r1.2 ++ r2.2 ++ t3)
                else (0, r2.1, flash_dut_init_events ++ r1.2 ++ r2.2 ++ t3)
        else (-9, chip, flash_dut_init_events)
  else (-5, chip, flash_dut_init_events)

@[simp] theorem flash_dut_read_zero (chip : Chip) (addr : Nat) :
    flash_dut_read chip addr 0 = [] := rfl

@[simp] theorem flash_dut_read_length (chip : Chip) (addr n : Nat) :
    (flash_dut_read chip addr n).length = n := by
  simp [flash_dut_read]

theorem flash_dut_read_append (chip : Chip) (addr m k : Nat) :
    flash_dut_read chip addr (m + k)
      = flash_dut_read chip addr m ++ flash_dut_read chip (addr + m) k := by
  simp only [flash_dut_read, List.range_add, List.map_append, List.map_map]
  congr 1
  apply List.map_congr_left
  intro i _
  simp only [Function.comp_apply]
  rw [Nat.add_assoc]

theorem flash_dut_read_getD (chip : Chip) (addr n x : Nat) (h : x < n) :
    (flash_dut_read chip addr n).getD x 0 = chip (addr + x) := by
  rw [List.getD_eq_getElem _ _ (by simpa using h)]
  simp [flash_dut_read]

theorem flash_dut_read_congr (c1 c2 : Chip) (addr n : Nat)
    (h : ∀ x, addr ≤ x → x < addr + n → c1 x = c2 x) :
    flash_dut_read c1 addr n = flash_dut_read c2 addr n := by
  apply List.map_congr_left
  intro i hi
  exact h (addr + i) (Nat.le_add_right _ _) (by simpa using List.mem_range.mp hi)

theorem crc32_bit_lt (c : Nat) (h : c < 2 ^ 32) : crc32_bit c < 2 ^ 32 := by
  have h1 : c >>> 1 < 2 ^ 32 := by
    rw [Nat.shiftRight_eq_div_pow]
    exact Nat.lt_of_le_of_lt (Nat.div_le_self _ _) h
  unfold crc32_bit
  split <;> exact Nat.xor_lt_two_pow h1 (by norm_num)

theorem crc32_bits_lt : ∀ (k : Nat) (c : Nat), c < 2 ^ 32 → crc32_bits k c < 2 ^ 32
  | 0, _, h => h
  | k + 1, c, h => crc32_bits_lt k (crc32_bit c) (crc32_bit_lt c h)

theorem crc32_byte_lt (c b : Nat) (hc : c < 2 ^ 32) (hb : b < 2 ^ 32) :
    crc32_byte c b < 2 ^ 32 :=
  crc32_bits_lt 8 (c ^^^ b) (Nat.xor_lt_two_pow hc hb)

theorem foldl_crc32_byte_lt (bs : List Nat) :
    ∀ acc, acc < 2 ^ 32 → (∀ b ∈ bs, b < 2 ^ 32) →
      bs.foldl crc32_byte acc < 2 ^ 32 := by
  induction bs with
  | nil => intro acc h _; simpa using h
  | cons b rest ih =>
    intro acc h hb
    rw [List.foldl_cons]
    exact ih _ (crc32_byte_lt _ _ h (hb b (List.mem_cons_self _ _)))
      fun x hx => hb x (List.mem_cons_of_mem _ hx)

/-- The running CRC stays a 32-bit value as long as the input values are
32-bit (bytes in particular). -/
theorem crc32_update_lt (c : Nat) (bs : List Nat) (hc : c < 2 ^ 32)
    (hb : ∀ b ∈ bs, b < 2 ^ 32) : crc32_update c bs < 2 ^ 32 := by
  unfold crc32_update
  exact Nat.xor_lt_two_pow
    (foldl_crc32_byte_lt bs _ (Nat.xor_lt_two_pow hc (by norm_num)) hb)
    (by norm_num)

theorem take_drop_split (file : List Nat) (pos n remain : Nat) (h : n ≤ remain) :
    (file.drop pos).take remain
      = (file.drop pos).take n ++ (file.drop (pos + n)).take (remain - n) := by
  conv_lhs => rw [show remain = n + (remain - n) from (Nat.add_sub_cancel' h).symm]
  rw [List.take_add, List.drop_drop]

/-- Correctness of the chunked CRC-recomputation loop of the restore path:
with a nonzero chunk size and the whole span inside the file, it returns the
CRC of the contiguous span, independently of the chunking. -/
theorem crcLoop_spec (file : List Nat) (chunk : Nat) (hc : 0 < chunk) :
    ∀ (fuel pos c remain : Nat), remain ≤ fuel → pos + remain ≤ file.length →
      crcLoop file chunk fuel pos c remain
        = some (crc32_update c ((file.drop pos).take remain)) := by
  intro fuel
  induction fuel with
  | zero =>
    intro pos c remain h1 _
    have h0 : remain = 0 := Nat.le_zero.mp h1
    subst h0
    simp [crcLoop]
  | succ fuel ih =>
    intro pos c remain h1 h2
    match remain with
    | 0 => simp [crcLoop]
    | Nat.succ r =>
      simp only [crcLoop]
      rw [if_neg (by omega), if_pos (by omega)]
      rw [ih (pos + min (r + 1) chunk)
        (crc32_update c ((file.drop pos).take (min (r + 1) chunk)))
        (r + 1 - min (r + 1) chunk) (by omega) (by omega)]
      rw [take_drop_split file pos (min (r + 1) chunk) (r + 1) (Nat.min_le_left _ _),
        crc32_update_append]

/-- Correctness of the backup streaming loop: it writes exactly the chip
bytes `[addr, addr + remain)` to the file and accumulates their CRC. -/
theorem backupLoop_spec (chip : Chip) :
    ∀ (fuel addr c remain : Nat), remain ≤ fuel →
      backupLoop chip fuel addr c remain
        = (flash_dut_read chip addr remain,
           crc32_update c (flash_dut_read chip addr remain)) := by
  intro fuel
  induction fuel with
  | zero =>
    intro addr c remain h1
    have h0 : remain = 0 := Nat.le_zero.mp h1
    subst h0
    simp [backupLoop]
  | succ fuel ih =>
    intro addr c remain h1
    match remain with
    | 0 => simp [backupLoop]
    | Nat.succ r =>
      simp only [backupLoop, Nat.succ_eq_add_one]
      rw [ih (addr + min (r + 1) 4096)
        (crc32_update c (flash_dut_read chip addr (min (r + 1) 4096)))
        (r + 1 - min (r + 1) 4096) (by omega)]
      conv_rhs => rw [show r + 1 = min (r + 1) 4096 + (r + 1 - min (r + 1) 4096) by omega]
      rw [flash_dut_read_append, crc32_update_append]

/-- Correctness of the live-chip CRC loop of `crc32_over_flash`: with a
nonzero chunk size it computes the CRC of the chip bytes `[addr, addr +
remain)`. -/
theorem crcFlashLoop_spec (chip : Chip) (chunk : Nat) (hc : 0 < chunk) :
    ∀ (fuel addr c remain : Nat), remain ≤ fuel →
      (crcFlashLoop chip chunk fuel addr c remain).1
        = crc32_update c (flash_dut_read chip addr remain) := by
  intro fuel
  induction fuel with
  | zero =>
    intro addr c remain h1
    have h0 : remain = 0 := Nat.le_zero.mp h1
    subst h0
    simp [crcFlashLoop]
  | succ fuel ih =>
    intro addr c remain h1
    match remain with
    | 0 => simp [crcFlashLoop]
    | Nat.succ r =>
      simp only [crcFlashLoop, Nat.succ_eq_add_one]
      rw [if_neg (by omega)]
      rw [ih (addr + min (r + 1) chunk)
        (crc32_update c (flash_dut_read chip addr (min (r + 1) chunk)))
        (r + 1 - min (r + 1) chunk) (by omega)]
      conv_rhs => rw [show r + 1 = min (r + 1) chunk + (r + 1 - min (r + 1) chunk) by omega]
      rw [flash_dut_read_append, crc32_update_append]

theorem writeBytes_nil (chip : Chip) (addr x : Nat) :
    writeBytes chip addr [] x = chip x := by
  simp only [writeBytes, List.length_nil]
  rw [if_neg (by omega)]

/-- Writing a run in two consecutive pieces has the same effect as writing
it in one piece. -/
theorem writeBytes_split (chip : Chip) (addr w : Nat) (data : List Nat)
    (hw : w ≤ data.length) (x : Nat) :
    writeBytes (writeBytes chip addr (data.take w)) (addr + w) (data.drop w) x
      = writeBytes chip addr data x := by
  simp only [writeBytes, List.length_take_of_le hw, List.length_drop]
  by_cases h1 : addr + w ≤ x ∧ x < addr + w + (data.length - w)
  · rw [if_pos h1, if_pos (by omega)]
    rw [List.getD_eq_getElem?_getD, List.getD_eq_getElem?_getD, List.getElem?_drop]
    rw [show w + (x - (addr + w)) = x - addr by omega]
  · rw [if_neg h1]
    by_cases h2 : addr ≤ x ∧ x < addr + w
    · rw [if_pos h2, if_pos (by omega)]
      rw [List.getD_eq_getElem?_getD, List.getD_eq_getElem?_getD, List.getElem?_take,
        if_pos (by omega)]
    · rw [if_neg h2, if_neg (by omega)]

/-- `writeBytes` reads the underlying chip only at the queried address. -/
theorem writeBytes_congr_base (c1 c2 : Chip) (addr : Nat) (data : List Nat)
    (x : Nat) (h : c1 x = c2 x) :
    writeBytes c1 addr data x = writeBytes c2 addr data x := by
  simp only [writeBytes]
  split
  · rfl
  · exact h

/-- The (address, data) pairs of the page-program transfers in a bus trace,
in order. -/
def progWrites : List BusEvent → List (Nat × List Nat)
  | [] => []
  | BusEvent.progCmd a d :: rest => (a, d) :: progWrites rest
  | _ :: rest => progWrites rest

/-- A page-program transfer is nonempty and stays inside one 256-byte page. -/
def pageOkWrite (w : Nat × List Nat) : Bool :=
  decide (1 ≤ w.2.length) && decide (w.1 % 256 + w.2.length ≤ 256)

/-- The write spans are consecutive: each transfer starts exactly where the
previous one ended. -/
def chainFrom : Nat → List (Nat × List Nat) → Bool
  | _, [] => true
  | a, w :: rest => (w.1 == a) && chainFrom (a + w.2.length) rest

/-- Full correctness of the page-splitting inner programming loop: it
succeeds, every issued page-program transfer is nonempty, at most one page
long and never crosses a 256-byte page boundary, the transferred spans
concatenate to exactly the chunk and are consecutive from the start address,
and the final chip bytes are those of writing the whole run at once. -/
theorem programChunk_spec :
    ∀ (fuel : Nat) (chip : Chip) (addr : Nat) (data : List Nat),
      data.length ≤ fuel →
      ∃ c t, programChunk fuel chip addr data = some (c, t) ∧
        (progWrites t).all pageOkWrite = true ∧
        ((progWrites t).map Prod.snd).flatten = data ∧
        chainFrom addr (progWrites t) = true ∧
        ∀ x, c x = writeBytes chip addr data x := by
  intro fuel
  induction fuel with
  | zero =>
    intro chip addr data h
    have h0 : data = [] := List.eq_nil_of_length_eq_zero (Nat.le_zero.mp h)
    subst h0
    exact ⟨chip, [], rfl, rfl, rfl, rfl, fun x => (writeBytes_nil chip addr x).symm⟩
  | succ fuel ih =>
    intro chip addr data h
    match data with
    | [] => exact ⟨chip, [], rfl, rfl, rfl, rfl, fun x => (writeBytes_nil chip addr x).symm⟩
    | d :: ds =>
      have hmod : addr % 256 < 256 := by omega
      have hw1 : 1 ≤ min (d :: ds).length (256 - addr % 256) := by
        simp only [List.length_cons]
        omega
      have hw2 : min (d :: ds).length (256 - addr % 256) ≤ (d :: ds).length :=
        Nat.min_le_left _ _
      have hpiece : ((d :: ds).take (min (d :: ds).length (256 - addr % 256))).length
          = min (d :: ds).length (256 - addr % 256) :=
        List.length_take_of_le hw2
      have hpage : flash_dut_program_page true chip addr
          (some ((d :: ds).take (min (d :: ds).length (256 - addr % 256))))
          = (true, writeBytes chip addr
              ((d :: ds).take (min (d :: ds).length (256 - addr % 256))),
             [BusEvent.cmd 0x06,
              BusEvent.progCmd addr
                ((d :: ds).take (min (d :: ds).length (256 - addr % 256))),
              BusEvent.waitBusy 10000]) := by
        rw [flash_dut_program_page, if_neg (by rw [hpiece]; omega)]
      obtain ⟨c, t, heq, hall, hjoin, hchain, hsem⟩ :=
        ih (writeBytes chip addr
              ((d :: ds).take (min (d :: ds).length (256 - addr % 256))))
           (addr + min (d :: ds).length (256 - addr % 256))
           ((d :: ds).drop (min (d :: ds).length (256 - addr % 256)))
           (by simp only [List.length_drop, List.length_cons] at *; omega)
      have hp : pageOkWrite (addr,
          (d :: ds).take (min (d :: ds).length (256 - addr % 256))) = true := by
        simp only [pageOkWrite, Bool.and_eq_true, decide_eq_true_eq]
        rw [hpiece]
        omega
      refine ⟨c,
        BusEvent.cmd 0x06 ::
          BusEvent.progCmd addr
            ((d :: ds).take (min (d :: ds).length (256 - addr % 256))) ::
          BusEvent.waitBusy 10000 :: t, ?_, ?_, ?_, ?_, ?_⟩
      · simp only [programChunk]
        rw [hpage]
        dsimp only
        rw [heq]
        rfl
      · simp only [progWrites, List.all_cons, hall, hp, Bool.and_true]
      · simp only [progWrites, List.map_cons, List.flatten_cons, hjoin]
        exact List.take_append_drop _ _
      · simp only [progWrites, chainFrom, hpiece, hchain, Bool.and_true,
          beq_self_eq_true]
      · intro x
        rw [hsem x, writeBytes_split chip addr _ (d :: ds) hw2 x]

/-- Correctness of the outer programming loop of the restore path: with a
nonzero chunk size and the payload span inside the file, it succeeds and the
final chip is the chip with the payload span written at `addr`. -/
theorem programLoop_spec (file : List Nat) (chunk : Nat) (hc : 0 < chunk) :
    ∀ (fuel pos : Nat) (chip : Chip) (addr remain : Nat), remain ≤ fuel →
      pos + remain ≤ file.length →
      ∃ c t, programLoop file chunk fuel pos chip addr remain = Except.ok (c, t) ∧
        ∀ x, c x = writeBytes chip addr ((file.drop pos).take remain) x := by
  intro fuel
  induction fuel with
  | zero =>
    intro pos chip addr remain h1 h2
    have h0 : remain = 0 := Nat.le_zero.mp h1
    subst h0
    refine ⟨chip, [], rfl, fun x => ?_⟩
    simp only [List.take_zero]
    exact (writeBytes_nil chip addr x).symm
  | succ fuel ih =>
    intro pos chip addr remain h1 h2
    match remain with
    | 0 =>
      refine ⟨chip, [], rfl, fun x => ?_⟩
      simp only [List.take_zero]
      exact (writeBytes_nil chip addr x).symm
    | Nat.succ r =>
      simp only [programLoop, Nat.succ_eq_add_one]
      rw [if_neg (by omega), if_pos (by omega)]
      have hdlen : ((file.drop pos).take (min (r + 1) chunk)).length
          = min (r + 1) chunk := by
        rw [List.length_take_of_le]
        rw [List.length_drop]
        omega
      obtain ⟨c1, t1, heq1, -, -, -, hsem1⟩ :=
        programChunk_spec (min (r + 1) chunk) chip addr
          ((file.drop pos).take (min (r + 1) chunk)) (le_of_eq hdlen)
      rw [heq1]
      dsimp only
      obtain ⟨c2, t2, heq2, hsem2⟩ :=
        ih (pos + min (r + 1) chunk) c1 (addr + min (r + 1) chunk)
          (r + 1 - min (r + 1) chunk) (by omega) (by omega)
      rw [heq2]
      refine ⟨c2, t1 ++ t2, rfl, fun x => ?_⟩
      rw [hsem2 x]
      have e1 : ((file.drop pos).take (r + 1)).drop (min (r + 1) chunk)
          = (file.drop (pos + min (r + 1) chunk)).take (r + 1 - min (r + 1) chunk) := by
        rw [List.drop_take, List.drop_drop]
      rw [← e1]
      have htlen : ((file.drop pos).take (r + 1)).length = r + 1 := by
        rw [List.length_take_of_le]
        rw [List.length_drop]
        omega
      have e2 : (file.drop pos).take (min (r + 1) chunk)
          = ((file.drop pos).take (r + 1)).take (min (r + 1) chunk) := by
        rw [List.take_take]
        congr 1
        omega
      have hb : c1 x = writeBytes chip addr
          (((file.drop pos).take (r + 1)).take (min (r + 1) chunk)) x := by
        rw [hsem1 x, e2]
      rw [writeBytes_congr_base c1
        (writeBytes chip addr (((file.drop pos).take (r + 1)).take (min (r + 1) chunk)))
        (addr + min (r + 1) chunk) _ x hb]
      exact writeBytes_split chip addr (min (r + 1) chunk)
        ((file.drop pos).take (r + 1)) (by omega) x

theorem byteAt_append (pre l : List Nat) (k : Nat) :
    byteAt (pre ++ l) (pre.length + k) = byteAt l k := by
  unfold byteAt
  rw [List.getD_append_right pre l 0 (pre.length + k) (Nat.le_add_right _ _),
    Nat.add_sub_cancel_left]

/-- Reading back a serialized little-endian `uint32_t` gives its 32-bit
value. -/
theorem rd32_at (pre post : List Nat) (x : Nat) :
    rd32 (pre ++ (le32 x ++ post)) pre.length = x % 2 ^ 32 := by
  have b0 := byteAt_append pre (le32 x ++ post) 0
  have b1 := byteAt_append pre (le32 x ++ post) 1
  have b2 := byteAt_append pre (le32 x ++ post) 2
  have b3 := byteAt_append pre (le32 x ++ post) 3
  rw [Nat.add_zero] at b0
  unfold rd32
  rw [b0, b1, b2, b3]
  have c0 : byteAt (le32 x ++ post) 0 = x % 256 := rfl
  have c1 : byteAt (le32 x ++ post) 1 = x / 256 % 256 := rfl
  have c2 : byteAt (le32 x ++ post) 2 = x / 65536 % 256 := rfl
  have c3 : byteAt (le32 x ++ post) 3 = x / 16777216 % 256 := rfl
  rw [c0, c1, c2, c3]
  have h32 : (2 : Nat) ^ 32 = 4294967296 := by norm_num
  rw [h32]
  omega

/-- Parsing a serialized header (with anything appended after it) recovers
the magic and the 32-bit values of the four numeric fields. -/
theorem parseHdr_fields (h : flashimg_hdr_t) (rest : List Nat)
    (hm : h.magic.length = 8) (hj : h.jedec.length = 3) :
    (hdrBytes h ++ rest).take 8 = h.magic ∧
    (parseHdr (hdrBytes h ++ rest)).flash_size = h.flash_size % 2 ^ 32 ∧
    (parseHdr (hdrBytes h ++ rest)).chunk_size = h.chunk_size % 2 ^ 32 ∧
    (parseHdr (hdrBytes h ++ rest)).image_size = h.image_size % 2 ^ 32 ∧
    (parseHdr (hdrBytes h ++ rest)).crc32_all = h.crc32_all % 2 ^ 32 := by
  refine ⟨?_, ?_, ?_, ?_, ?_⟩
  · have e : hdrBytes h ++ rest = h.magic ++
        (h.jedec ++ [h.reserved] ++ le32 h.flash_size ++ le32 h.chunk_size ++
         le32 h.image_size ++ le32 h.crc32_all ++ rest) := by
      simp [hdrBytes, List.append_assoc]
    rw [e, ← hm, List.take_left]
  · have e : hdrBytes h ++ rest = (h.magic ++ h.jedec ++ [h.reserved]) ++
        (le32 h.flash_size ++ (le32 h.chunk_size ++ le32 h.image_size ++
         le32 h.crc32_all ++ rest)) := by
      simp [hdrBytes, List.append_assoc]
    have l1 : (h.magic ++ h.jedec ++ [h.reserved]).length = 12 := by
      simp [hm, hj]
    show rd32 (hdrBytes h ++ rest) 12 = h.flash_size % 2 ^ 32
    rw [e, ← l1]
    exact rd32_at _ _ _
  · have e : hdrBytes h ++ rest =
        (h.magic ++ h.jedec ++ [h.reserved] ++ le32 h.flash_size) ++
        (le32 h.chunk_size ++ (le32 h.image_size ++ le32 h.crc32_all ++ rest)) := by
      simp [hdrBytes, List.append_assoc]
    have l1 : (h.magic ++ h.jedec ++ [h.reserved] ++ le32 h.flash_size).length = 16 := by
      simp [hm, hj, le32]
    show rd32 (hdrBytes h ++ rest) 16 = h.chunk_size % 2 ^ 32
    rw [e, ← l1]
    exact rd32_at _ _ _
  · have e : hdrBytes h ++ rest =
        (h.magic ++ h.jedec ++ [h.reserved] ++ le32 h.flash_size ++ le32 h.chunk_size) ++
        (le32 h.image_size ++ (le32 h.crc32_all ++ rest)) := by
      simp [hdrBytes, List.append_assoc]
    have l1 : (h.magic ++ h.jedec ++ [h.reserved] ++ le32 h.flash_size ++
        le32 h.chunk_size).length = 20 := by
      simp [hm, hj, le32]
    show rd32 (hdrBytes h ++ rest) 20 = h.image_size % 2 ^ 32
    rw [e, ← l1]
    exact rd32_at _ _ _
  · have e : hdrBytes h ++ rest =
        (h.magic ++ h.jedec ++ [h.reserved] ++ le32 h.flash_size ++ le32 h.chunk_size ++
         le32 h.image_size) ++ (le32 h.crc32_all ++ rest) := by
      simp [hdrBytes, List.append_assoc]
    have l1 : (h.magic ++ h.jedec ++ [h.reserved] ++ le32 h.flash_size ++
        le32 h.chunk_size ++ le32 h.image_size).length = 24 := by
      simp [hm, hj, le32]
    show rd32 (hdrBytes h ++ rest) 24 = h.crc32_all % 2 ^ 32
    rw [e, ← l1]
    exact rd32_at _ _ _

/-- Recognizes a sequential data read on the bus. -/
def isReadEvent : BusEvent → Bool
  | BusEvent.readData _ _ => true
  | _ => false

/-- C1: for every image file whose header passed format validation, if the
recomputed payload CRC, the trailer CRC and the header CRC do not all three
agree, `restore_flash_from_sd` aborts with the IntegrityError code `-10`
before touching the chip: the chip data is unchanged and the bus trace is
exactly the unconditional driver initialization, which contains no
sector-erase and no page-program command. -/
theorem restore_integrity_abort (file : List Nat) (chip : Chip)
    (hlen : 28 ≤ file.length)
    (hmagic : file.take 8 = fimgMagic)
    (himg : (parseHdr file).image_size ≠ 0)
    (hchunk : (parseHdr file).chunk_size ≠ 0)
    (havail : 28 + (parseHdr file).image_size + 4 ≤ file.length)
    (hbad : ¬ (crc32_update 0 ((file.drop 28).take (parseHdr file).image_size)
                 = rd32 file (28 + (parseHdr file).image_size)
               ∧ crc32_update 0 ((file.drop 28).take (parseHdr file).image_size)
                 = (parseHdr file).crc32_all)) :
    restore_flash_from_sd file chip = (-10, chip, flash_dut_init_events) ∧
    flash_dut_init_events.filter isEraseEvent = [] ∧
    flash_dut_init_events.filter isProgEvent = [] := by
  refine ⟨?_, rfl, rfl⟩
  unfold restore_flash_from_sd
  rw [if_pos ⟨hlen, hmagic⟩]
  dsimp only
  rw [if_neg (by simp [himg, hchunk])]
  rw [crcLoop_spec file (parseHdr file).chunk_size (Nat.pos_of_ne_zero hchunk)
    (parseHdr file).image_size 28 0 (parseHdr file).image_size le_rfl (by omega)]
  dsimp only
  rw [if_pos havail]
  rw [if_pos (by tauto)]

/-- The chip content used by the concrete round-trip and tamper witnesses. -/
def wChip : Chip := fun a => (a + 1) % 256

/-- The JEDEC identity used by the concrete witnesses. -/
def wId : jedec_info_t := ⟨0xEF, 0x40, 0x18⟩

/-- A valid 4-byte backup image with one payload byte (file offset 30)
flipped. -/
def tamperedFile : List Nat := (backup_file wChip wId 4).set 30 0xAA

/-- Witness for C1: restoring the tampered image aborts with `-10`, chip
untouched, no erase or program command issued. -/
theorem restore_integrity_abort_witness :
    restore_flash_from_sd tamperedFile zeroChip
      = (-10, zeroChip, flash_dut_init_events) ∧
    flash_dut_init_events.filter isEraseEvent = [] ∧
    flash_dut_init_events.filter isProgEvent = [] :=
  restore_integrity_abort tamperedFile zeroChip (by decide) (by decide)
    (by decide) (by decide) (by decide) (by decide)

/-- C6 (amended): a restore target with a bad magic tag or a zero-valued
size field fails immediately with a FormatError code (`-5` or `-6`); the
chip data is unchanged and the only bus traffic is the unconditional driver
initialization — no erase, program or data-read command is issued. -/
theorem restore_format_abort (file : List Nat) (chip : Chip)
    (hlen : 28 ≤ file.length)
    (hbad : ¬ file.take 8 = fimgMagic ∨ (parseHdr file).image_size = 0 ∨
      (parseHdr file).chunk_size = 0) :
    ∃ rc : Int, (rc = -5 ∨ rc = -6) ∧
      restore_flash_from_sd file chip = (rc, chip, flash_dut_init_events) ∧
      flash_dut_init_events.filter isEraseEvent = [] ∧
      flash_dut_init_events.filter isProgEvent = [] ∧
      flash_dut_init_events.filter isReadEvent = [] := by
  by_cases hm : file.take 8 = fimgMagic
  · have hsz : (parseHdr file).image_size = 0 ∨ (parseHdr file).chunk_size = 0 := by
      tauto
    refine ⟨-6, Or.inr rfl, ?_, rfl, rfl, rfl⟩
    unfold restore_flash_from_sd
    rw [if_pos ⟨hlen, hm⟩]
    dsimp only
    rw [if_pos hsz]
  · refine ⟨-5, Or.inl rfl, ?_, rfl, rfl, rfl⟩
    unfold restore_flash_from_sd
    rw [if_neg (by tauto)]

/-- A header-only image whose header claims `imageSize = 0` (magic valid,
`flashSize` 16384, `chunkSize` 4096). -/
def formatBadFile : List Nat :=
  fimgMagic ++ [0xEF, 0x40, 0x18, 0] ++ le32 16384 ++ le32 4096 ++ le32 0 ++ le32 0

/-- Counterexample for C6 as frozen: on a header claiming `imageSize = 0`
the restore does fail immediately with the FormatError code `-6`, but the
flash-bus trace of the failing attempt is NOT empty — `restore_flash_from_sd`
unconditionally runs `flash_dut_init` (soft reset + global unprotect,
including a status-register write) before reading the header, so the claim
that zero FlashDevice calls are made is false. -/
theorem restore_format_counterexample :
    (restore_flash_from_sd formatBadFile zeroChip).1 = -6 ∧
    (restore_flash_from_sd formatBadFile zeroChip).2.2 ≠ [] := by
  constructor
  · decide
  · decide

/-- Witness for the amended C6 on the `imageSize = 0` header. -/
theorem restore_format_abort_witness :
    ∃ rc : Int, (rc = -5 ∨ rc = -6) ∧
      restore_flash_from_sd formatBadFile zeroChip
        = (rc, zeroChip, flash_dut_init_events) ∧
      flash_dut_init_events.filter isEraseEvent = [] ∧
      flash_dut_init_events.filter isProgEvent = [] ∧
      flash_dut_init_events.filter isReadEvent = [] :=
  restore_format_abort formatBadFile zeroChip (by decide) (by decide)

/-- C4: for every start address (page-aligned or not, covering in particular
0, 255, 256 and 4095) and every chunk of data, the page-splitting loop of
the restore path succeeds and (i) every issued page-program transfer is
nonempty and stays inside one 256-byte page (`a % 256 + len ≤ 256`, i.e. the
split length is `min(remaining, 256 - a % 256)`), (ii) the transferred spans
concatenate to exactly the chunk, (iii) the spans are consecutive from the
start address, and (iv) the final chip bytes are those of the page-exact
reference semantics: every byte of the run lands at its own address
(`writeBytes`), independently of the splitting. -/
theorem restore_page_split_correct (chip : Chip) (addr : Nat) (data : List Nat)
    (x : Nat) :
    ∃ c t, programChunk data.length chip addr data = some (c, t) ∧
      (progWrites t).all pageOkWrite = true ∧
      ((progWrites t).map Prod.snd).flatten = data ∧
      chainFrom addr (progWrites t) = true ∧
      c x = writeBytes chip addr data x := by
  obtain ⟨c, t, h1, h2, h3, h4, h5⟩ := programChunk_spec data.length chip addr data le_rfl
  exact ⟨c, t, h1, h2, h3, h4, h5 x⟩

/-- C2: backing up a synthetic chip of any nonzero 32-bit size `S` and
restoring the produced file onto any target chip reports success (code 0),
reproduces the original chip bytes on `[0, S)`, and the post-restore live
checksum over the restored chip equals the file's header checksum. -/
theorem restore_backup_roundtrip (chip chip₀ : Chip) (id : jedec_info_t)
    (S a : Nat) (hS : 0 < S) (hS32 : S < 2 ^ 32)
    (hb : ∀ x, chip x < 256) (ha : a < S) :
    (restore_flash_from_sd (backup_file chip id S) chip₀).1 = 0 ∧
    (restore_flash_from_sd (backup_file chip id S) chip₀).2.1 a = chip a ∧
    (crc32_over_flash (restore_flash_from_sd (backup_file chip id S) chip₀).2.1
        S 4096).1
      = some (rd32 (backup_file chip id S) 24) := by
  have hpl := backupLoop_spec chip S 0 0 S le_rfl
  have hplen : (flash_dut_read chip 0 S).length = S := flash_dut_read_length chip 0 S
  have hcrclt : crc32_update 0 (flash_dut_read chip 0 S) < 2 ^ 32 := by
    refine crc32_update_lt 0 _ (by norm_num) ?_
    intro b hbmem
    obtain ⟨i, -, rfl⟩ := List.mem_map.mp hbmem
    exact lt_of_lt_of_le (hb _) (by norm_num)
  have hfile : backup_file chip id S =
      hdrBytes ⟨fimgMagic, [id.manuf_id, id.mem_type, id.capacity_id], 0, S, 4096, S,
          crc32_update 0 (flash_dut_read chip 0 S)⟩
        ++ ((flash_dut_read chip 0 S) ++ le32 (crc32_update 0 (flash_dut_read chip 0 S))) := by
    rw [backup_file, hpl]
    simp [List.append_assoc]
  have hfields := parseHdr_fields
    ⟨fimgMagic, [id.manuf_id, id.mem_type, id.capacity_id], 0, S, 4096, S,
      crc32_update 0 (flash_dut_read chip 0 S)⟩
    ((flash_dut_read chip 0 S) ++ le32 (crc32_update 0 (flash_dut_read chip 0 S)))
    rfl rfl
  rw [← hfile] at hfields
  dsimp only at hfields
  obtain ⟨htake, hfs, hcs, his, hca⟩ := hfields
  rw [Nat.mod_eq_of_lt hS32] at hfs his
  rw [Nat.mod_eq_of_lt hcrclt] at hca
  have hcs' : (parseHdr (backup_file chip id S)).chunk_size = 4096 := by
    rw [hcs]
    rfl
  have hhdrlen : (hdrBytes ⟨fimgMagic, [id.manuf_id, id.mem_type, id.capacity_id], 0,
      S, 4096, S, crc32_update 0 (flash_dut_read chip 0 S)⟩).length = 28 := rfl
  have htrlen : (le32 (crc32_update 0 (flash_dut_read chip 0 S))).length = 4 := rfl
  have hflen : (backup_file chip id S).length = 28 + S + 4 := by
    rw [hfile, List.length_append, List.length_append, hhdrlen, hplen, htrlen]
    omega
  have hdrop : (backup_file chip id S).drop 28 =
      (flash_dut_read chip 0 S) ++ le32 (crc32_update 0 (flash_dut_read chip 0 S)) := by
    rw [hfile]
    exact List.drop_left' hhdrlen
  have hpayload_take : ((backup_file chip id S).drop 28).take S
      = flash_dut_read chip 0 S := by
    rw [hdrop]
    exact List.take_left' hplen
  have htrailer : rd32 (backup_file chip id S) (28 + S)
      = crc32_update 0 (flash_dut_read chip 0 S) := by
    have e : backup_file chip id S =
        (hdrBytes ⟨fimgMagic, [id.manuf_id, id.mem_type, id.capacity_id], 0, S, 4096, S,
          crc32_update 0 (flash_dut_read chip 0 S)⟩ ++ (flash_dut_read chip 0 S)) ++
        (le32 (crc32_update 0 (flash_dut_read chip 0 S)) ++ []) := by
      rw [hfile]
      simp [List.append_assoc]
    have l1 : (hdrBytes ⟨fimgMagic, [id.manuf_id, id.mem_type, id.capacity_id], 0, S,
        4096, S, crc32_update 0 (flash_dut_read chip 0 S)⟩ ++
        (flash_dut_read chip 0 S)).length = 28 + S := by
      rw [List.length_append, hhdrlen, hplen]
    rw [e, ← l1, rd32_at, Nat.mod_eq_of_lt hcrclt]
  have hcrcloop : crcLoop (backup_file chip id S) 4096 S 28 0 S
      = some (crc32_update 0 (flash_dut_read chip 0 S)) := by
    rw [crcLoop_spec (backup_file chip id S) 4096 (by norm_num) S 28 0 S le_rfl
      (by omega), hpayload_take]
  obtain ⟨c2, t2, heq2, hsem2⟩ :=
    programLoop_spec (backup_file chip id S) 4096 (by norm_num) S 28
      (eraseLoop S chip₀ 0 S).1 0 S le_rfl (by omega)
  have hc2 : ∀ x, x < S → c2 x = chip x := by
    intro x hx
    rw [hsem2 x, hpayload_take]
    simp only [writeBytes, hplen, Nat.zero_add, Nat.zero_le, true_and, Nat.sub_zero]
    rw [if_pos hx]
    rw [flash_dut_read_getD chip 0 S x hx, Nat.zero_add]
  have hliveread : flash_dut_read c2 0 S = flash_dut_read chip 0 S :=
    flash_dut_read_congr c2 chip 0 S fun x _ hx2 => hc2 x (by omega)
  have hover : crc32_over_flash c2 S 4096
      = (some (crc32_update 0 (flash_dut_read chip 0 S)),
         (crcFlashLoop c2 4096 S 0 0 S).2) := by
    rw [crc32_over_flash, if_neg (by norm_num)]
    dsimp only
    rw [crcFlashLoop_spec c2 4096 (by norm_num) S 0 0 S le_rfl, hliveread]
  have hres : ∃ t, restore_flash_from_sd (backup_file chip id S) chip₀
      = (0, c2, t) := by
    unfold restore_flash_from_sd
    rw [if_pos ⟨by omega, htake⟩]
    dsimp only
    rw [his, hcs', hfs, hca]
    rw [if_neg (by push_neg; exact ⟨by omega, by norm_num⟩)]
    rw [hcrcloop]
    dsimp only
    rw [if_pos (by omega)]
    rw [htrailer]
    rw [if_neg (by simp)]
    rw [heq2]
    dsimp only
    rw [hover]
    dsimp only
    rw [if_neg (by simp)]
    exact ⟨_, rfl⟩
  obtain ⟨t, ht⟩ := hres
  rw [ht]
  have hrd : rd32 (backup_file chip id S) 24
      = crc32_update 0 (flash_dut_read chip 0 S) := hca
  refine ⟨rfl, hc2 a ha, ?_⟩
  dsimp only
  rw [hrd, hover]

/-- Witness for C2: a 4-byte chip round-trips onto an all-zero target chip. -/
theorem restore_backup_roundtrip_witness :
    (restore_flash_from_sd (backup_file wChip wId 4) zeroChip).1 = 0 ∧
    (restore_flash_from_sd (backup_file wChip wId 4) zeroChip).2.1 3 = wChip 3 ∧
    (crc32_over_flash (restore_flash_from_sd (backup_file wChip wId 4) zeroChip).2.1
        4 4096).1
      = some (rd32 (backup_file wChip wId 4) 24) :=
  restore_backup_roundtrip wChip zeroChip wId 4 3 (by decide) (by decide)
    (fun x => Nat.mod_lt (x + 1) (by decide)) (by decide)

/-- A FAT directory entry as consumed by `choose_latest_image`: the file
name (`f.fname`) and its FAT date/time stamps. -/
structure FILINFO where
  fname : List Char
  fdate : Nat
  ftime : Nat

/-- C `strcmp(a, b) > 0` on ASCII character lists. -/
def strGt : List Char → List Char → Bool
  | [], _ => false
  | _ :: _, [] => true
  | a :: as, b :: bs =>
    if a.toNat > b.toNat then true
    else if a.toNat < b.toNat then false
    else strGt as bs

/-- Whether `sub` occurs at the head of `s`. -/
def charsStartWith : List Char → List Char → Bool
  | [], _ => true
  | _ :: _, [] => false
  | a :: as, b :: bs => a == b && charsStartWith as bs

/-- C `strstr(s, ".fimg") != NULL`. -/
def containsFimg : List Char → Bool
  | [] => false
  | a :: rest =>
    charsStartWith ['.', 'f', 'i', 'm', 'g'] (a :: rest) || containsFimg rest

/-- `DUMP_FOLDER` (`"FLASHIMG"`). -/
def dumpFolderChars : List Char := ['F', 'L', 'A', 'S', 'H', 'I', 'M', 'G']

/-- The selection fold of `choose_latest_image` over the directory listing,
carrying `best_date`, `best_time` and `best_path` (empty = none yet).  An
entry carrying a FAT timestamp wins on a strictly greater (date, time)
pair; an entry without a timestamp wins when no best exists yet or when
`strcmp(f.fname, best_path) > 0` — the comparison is against the stored
best PATH (which starts with `FLASHIMG/`), not against the best file name. -/
def chooseLoop : List FILINFO → Nat → Nat → List Char → List Char
  | [], _, _, best => best
  | f :: rest, bd, bt, best =>
    if containsFimg f.fname = false then chooseLoop rest bd bt best
    else
      let newer :=
        if f.fdate ≠ 0 ∨ f.ftime ≠ 0 then
          decide (f.fdate > bd) || (decide (f.fdate = bd) && decide (f.ftime > bt))
        else
          best.isEmpty || strGt f.fname best
      if newer then
        chooseLoop rest f.fdate f.ftime (dumpFolderChars ++ '/' :: f.fname)
      else chooseLoop rest bd bt best

/-- `choose_latest_image` from `src/main.c`: fold the listing, return the
chosen `FLASHIMG/<name>` path, or `none` (C return `-1`) when no `.fimg`
entry was seen. -/
def choose_latest_image (entries : List FILINFO) : Option (List Char) :=
  let best := chooseLoop entries 0 0 []
  if best.isEmpty then none else some best

/-- C9 is violated by the code: in a directory of two timestamp-less entries
`A.fimg` then `B.fimg`, the lexicographically greatest file name is
`B.fimg`, but `choose_latest_image` keeps `FLASHIMG/A.fimg`, because for
timestamp-less entries the candidate's bare file name is `strcmp`-compared
with the stored best PATH (`FLASHIMG/A.fimg`), and `'B' < 'F'`. -/
theorem choose_latest_image_bug :
    choose_latest_image
        [⟨['A', '.', 'f', 'i', 'm', 'g'], 0, 0⟩,
         ⟨['B', '.', 'f', 'i', 'm', 'g'], 0, 0⟩]
      = some ['F', 'L', 'A', 'S', 'H', 'I', 'M', 'G', '/',
              'A', '.', 'f', 'i', 'm', 'g'] ∧
    strGt ['B', '.', 'f', 'i', 'm', 'g'] ['A', '.', 'f', 'i', 'm', 'g'] = true := by
  constructor
  · decide
  · decide
